import Mathlib

/-!
# DinnerDuty task-assignment store: shallow embedding and verification

This file embeds the in-memory storage layer of the DinnerDuty application
(`src/server/storage.ts`, class `MemStorage`) in Lean 4 and proves the
behavioral properties stated in the specification.

Modelling conventions:
* The JavaScript `Map<string, T>` is modelled as an insertion-ordered
  association list `List (String × T)` with `Map.get`/`Map.set` semantics
  (`mapGet`/`mapSet`).
* `randomUUID()` is modelled as a fresh-identifier supply: a counter
  `nextId : Nat` threaded through the state.  `TaskAssignment.id` is a `Nat`;
  generated user ids are rendered as strings with `uuidStr`.
* `new Date()` timestamps are modelled by an explicit clock argument
  `now : Nat` passed to the operations that read the clock.
* `async`/`Promise` wrappers and the best-effort file persistence
  (`saveData`, spec §4.4: write-through, errors logged and swallowed, the
  in-memory maps are the source of truth) have no effect on the in-memory
  results, so every operation is a pure function from state to
  (result, state).
* Optional ("may be omitted") fields of the TypeScript insert types are
  modelled as an outer `Option`; a nullable field value is the inner
  `Option`.  Omitted = `none`; provided-as-null = `some none`.
* The app-content map of `MemStorage` is not touched by any property proved
  here and is omitted from the state.
-/

namespace DinnerDuty

/-- The closed 4-element set of task kinds (`TaskType` in `shared/schema.ts`):
cooking, shopping, table setting, dishwashing. -/
inductive TaskType where
  | kok
  | indkoeb
  | bord
  | opvask
deriving DecidableEq, Repr

/-- `Tasks` from `shared/schema.ts`: a record with one optional assignee name
per task kind; all four keys always present, unassigned = null. -/
structure Tasks where
  kok : Option String
  indkoeb : Option String
  bord : Option String
  opvask : Option String
deriving DecidableEq, Repr

/-- Reading one slot of a `Tasks` record (`tasks[taskType]`). -/
def Tasks.slot (t : Tasks) : TaskType → Option String
  | .kok => t.kok
  | .indkoeb => t.indkoeb
  | .bord => t.bord
  | .opvask => t.opvask

/-- `{...tasks}` followed by `updatedTasks[taskType] = resident`
(`MemStorage.assignTask`): functional update of one slot. -/
def Tasks.setSlot (t : Tasks) : TaskType → Option String → Tasks
  | .kok, r => { t with kok := r }
  | .indkoeb, r => { t with indkoeb := r }
  | .bord, r => { t with bord := r }
  | .opvask, r => { t with opvask := r }

/-- The all-null `tasks` object `{ kok: null, indkoeb: null, bord: null,
opvask: null }` used everywhere a default record is created. -/
def emptyTasks : Tasks := ⟨none, none, none, none⟩

/-- `TaskAssignment` from `shared/schema.ts`: one record per calendar date. -/
structure TaskAssignment where
  id : Nat
  date : String
  tasks : Tasks
  aloneInKitchen : Option String
  dishOfTheDay : Option String
  shoppingList : List String
deriving DecidableEq, Repr

/-- `InsertTaskAssignment` from `shared/schema.ts` (`id` omitted; `date` and
`tasks` required; the remaining columns nullable hence optional).  The outer
`Option` is field presence, the inner one is nullability. -/
structure InsertTaskAssignment where
  date : String
  tasks : Tasks
  aloneInKitchen : Option (Option String)
  dishOfTheDay : Option (Option String)
  shoppingList : Option (List String)
deriving DecidableEq, Repr

/-- `User` from `shared/schema.ts` (the `users` table row). -/
structure User where
  id : String
  email : Option String
  firstName : Option String
  lastName : Option String
  profileImageUrl : Option String
  isAdmin : Option Bool
  createdAt : Option Nat
  updatedAt : Option Nat
deriving DecidableEq, Repr

/-- `UpsertUser = typeof users.$inferInsert` from `shared/schema.ts`: every
column is optional (nullable or defaulted), including the timestamps. -/
structure UpsertUser where
  id : Option String
  email : Option (Option String)
  firstName : Option (Option String)
  lastName : Option (Option String)
  profileImageUrl : Option (Option String)
  isAdmin : Option (Option Bool)
  createdAt : Option (Option Nat)
  updatedAt : Option (Option Nat)
deriving DecidableEq, Repr

/-- The upsert payload with every optional field omitted. -/
def UpsertUser.empty : UpsertUser := ⟨none, none, none, none, none, none, none, none⟩

/-- `Map.get` on an insertion-ordered association list. -/
def mapGet {α : Type} : List (String × α) → String → Option α
  | [], _ => none
  | (k, v) :: rest, key => if k = key then some v else mapGet rest key

/-- `Map.set` on an insertion-ordered association list: replace in place if
the key exists, otherwise append. -/
def mapSet {α : Type} : List (String × α) → String → α → List (String × α)
  | [], key, v => [(key, v)]
  | (k, w) :: rest, key, v =>
      if k = key then (key, v) :: rest else (k, w) :: mapSet rest key v

/-- Rendering of a generated `randomUUID()` as a user-id string. -/
def uuidStr (n : Nat) : String := "uuid-" ++ toString n

/-- JavaScript `String.prototype.trim`: strip leading and trailing
whitespace.  Implemented on the character list (with the same whitespace
predicate as Lean's `String.trim`) so that it evaluates inside the kernel. -/
def jsTrim (s : String) : String :=
  ⟨((s.data.dropWhile Char.isWhitespace).reverse.dropWhile Char.isWhitespace).reverse⟩

/-- The in-memory state of `MemStorage`: the task-assignment map keyed by
date, the user map keyed by user id, and the fresh-uuid counter. -/
structure MemStorage where
  taskAssignments : List (String × TaskAssignment)
  users : List (String × User)
  nextId : Nat
deriving DecidableEq, Repr

/-- A freshly constructed, empty store. -/
def initStorage : MemStorage := ⟨[], [], 0⟩

namespace MemStorage

/-- `MemStorage.getTaskAssignmentByDate`: exact point lookup. -/
def getTaskAssignmentByDate (s : MemStorage) (date : String) : Option TaskAssignment :=
  mapGet s.taskAssignments date

/-- `MemStorage.createOrUpdateTaskAssignment`: if a record exists for the
date, shallow-merge the provided fields over it (`{...existing,
...assignment}`); otherwise create a new record with a fresh id, filling the
omitted optional fields with `?? null` / `?? []` defaults. -/
def createOrUpdateTaskAssignment (s : MemStorage) (a : InsertTaskAssignment) :
    TaskAssignment × MemStorage :=
  match mapGet s.taskAssignments a.date with
  | some existing =>
      let updated : TaskAssignment :=
        { id := existing.id
          date := a.date
          tasks := a.tasks
          aloneInKitchen := a.aloneInKitchen.getD existing.aloneInKitchen
          dishOfTheDay := a.dishOfTheDay.getD existing.dishOfTheDay
          shoppingList := a.shoppingList.getD existing.shoppingList }
      (updated, { s with taskAssignments := mapSet s.taskAssignments a.date updated })
  | none =>
      let newAssignment : TaskAssignment :=
        { id := s.nextId
          date := a.date
          tasks := a.tasks
          aloneInKitchen := a.aloneInKitchen.getD none
          dishOfTheDay := a.dishOfTheDay.getD none
          shoppingList := a.shoppingList.getD [] }
      (newAssignment,
        { s with
            taskAssignments := mapSet s.taskAssignments a.date newAssignment
            nextId := s.nextId + 1 })

/-- The all-default insert payload every mutator passes when the date has no
record yet (all fields provided, with null/empty values). -/
def defaultInsert (date : String) : InsertTaskAssignment :=
  { date := date
    tasks := emptyTasks
    aloneInKitchen := some none
    dishOfTheDay := some none
    shoppingList := some [] }

/-- The get-or-create prelude shared by every mutator: use the existing
record, or create the default one first. -/
def getOrCreate (s : MemStorage) (date : String) : TaskAssignment × MemStorage :=
  match getTaskAssignmentByDate s date with
  | some existing => (existing, s)
  | none => createOrUpdateTaskAssignment s (defaultInsert date)

/-- `MemStorage.assignTask`: ensure a base record exists, replace exactly the
one `taskType` slot with `resident`, persist via
`createOrUpdateTaskAssignment`.  (`existing.shoppingList ?? []` is the
identity here since the model's lists are non-nullable.) -/
def assignTask (s : MemStorage) (date : String) (taskType : TaskType)
    (resident : Option String) : TaskAssignment × MemStorage :=
  let (existing, s1) := getOrCreate s date
  createOrUpdateTaskAssignment s1
    { date := date
      tasks := existing.tasks.setSlot taskType resident
      aloneInKitchen := some existing.aloneInKitchen
      dishOfTheDay := some existing.dishOfTheDay
      shoppingList := some existing.shoppingList }

/-- `MemStorage.setAloneInKitchen`: replace only `aloneInKitchen`. -/
def setAloneInKitchen (s : MemStorage) (date : String) (resident : Option String) :
    TaskAssignment × MemStorage :=
  let (existing, s1) := getOrCreate s date
  createOrUpdateTaskAssignment s1
    { date := date
      tasks := existing.tasks
      aloneInKitchen := some resident
      dishOfTheDay := some existing.dishOfTheDay
      shoppingList := some existing.shoppingList }

/-- `MemStorage.setDishOfTheDay`: replace only `dishOfTheDay`. -/
def setDishOfTheDay (s : MemStorage) (date : String) (dish : Option String) :
    TaskAssignment × MemStorage :=
  let (existing, s1) := getOrCreate s date
  createOrUpdateTaskAssignment s1
    { date := date
      tasks := existing.tasks
      aloneInKitchen := some existing.aloneInKitchen
      dishOfTheDay := some dish
      shoppingList := some existing.shoppingList }

/-- `MemStorage.resetTasks`: overwrite all mutable fields with defaults via a
single `createOrUpdateTaskAssignment` call. -/
def resetTasks (s : MemStorage) (date : String) : TaskAssignment × MemStorage :=
  createOrUpdateTaskAssignment s (defaultInsert date)

/-- `MemStorage.addShoppingItem`: append `item.trim()` to the current list
(no emptiness filtering on this path). -/
def addShoppingItem (s : MemStorage) (date : String) (item : String) :
    TaskAssignment × MemStorage :=
  let (existing, s1) := getOrCreate s date
  createOrUpdateTaskAssignment s1
    { date := date
      tasks := existing.tasks
      aloneInKitchen := some existing.aloneInKitchen
      dishOfTheDay := some existing.dishOfTheDay
      shoppingList := some (existing.shoppingList ++ [jsTrim item]) }

/-- `currentList.filter((_, i) => i !== index)`: keep the elements whose
0-based position differs from `index`.  JavaScript numbers are modelled as
`Int` (so negative indices are representable); the counter `i` starts at 0. -/
def filterIdxNe (index : Int) : List String → Int → List String
  | [], _ => []
  | x :: xs, i =>
      if i = index then filterIdxNe index xs (i + 1)
      else x :: filterIdxNe index xs (i + 1)

/-- `MemStorage.removeShoppingItem`: filter-based positional removal; an
out-of-range index keeps the list intact (no bounds check, nothing thrown). -/
def removeShoppingItem (s : MemStorage) (date : String) (index : Int) :
    TaskAssignment × MemStorage :=
  let (existing, s1) := getOrCreate s date
  createOrUpdateTaskAssignment s1
    { date := date
      tasks := existing.tasks
      aloneInKitchen := some existing.aloneInKitchen
      dishOfTheDay := some existing.dishOfTheDay
      shoppingList := some (filterIdxNe index existing.shoppingList 0) }

/-- `MemStorage.updateShoppingList` (the spec's `replaceShoppingList`): set
the list to `items.filter(item => item.trim().length > 0)` — blank entries
dropped, survivors not trimmed. -/
def updateShoppingList (s : MemStorage) (date : String) (items : List String) :
    TaskAssignment × MemStorage :=
  let (existing, s1) := getOrCreate s date
  createOrUpdateTaskAssignment s1
    { date := date
      tasks := existing.tasks
      aloneInKitchen := some existing.aloneInKitchen
      dishOfTheDay := some existing.dishOfTheDay
      shoppingList := some (items.filter fun item => 0 < (jsTrim item).length) }

/-- `MemStorage.getTaskAssignmentsByDateRange`: one record per input date in
input order; a date with no stored record yields a transient default record
with a fresh id, without touching the map. -/
def getTaskAssignmentsByDateRange (s : MemStorage) :
    List String → List TaskAssignment × MemStorage
  | [] => ([], s)
  | date :: rest =>
      match mapGet s.taskAssignments date with
      | some assignment =>
          let p := getTaskAssignmentsByDateRange s rest
          (assignment :: p.1, p.2)
      | none =>
          let synthesized : TaskAssignment :=
            { id := s.nextId
              date := date
              tasks := emptyTasks
              aloneInKitchen := none
              dishOfTheDay := none
              shoppingList := [] }
          let p :=
            getTaskAssignmentsByDateRange { s with nextId := s.nextId + 1 } rest
          (synthesized :: p.1, p.2)

/-- `MemStorage.ensureCurrentWeekData`: for every date of the given week that
has no record yet, insert an empty assignment with a fresh id.  The source
computes the date list itself (`getWeekDates(getCurrentWeekStart())`); the
model takes the list as a parameter since only its per-date effect matters. -/
def ensureWeekData (s : MemStorage) : List String → MemStorage
  | [] => s
  | date :: rest =>
      match mapGet s.taskAssignments date with
      | some _ => ensureWeekData s rest
      | none =>
        let emptyAssignment : TaskAssignment :=
          { id := s.nextId
            date := date
            tasks := emptyTasks
            aloneInKitchen := none
            dishOfTheDay := none
            shoppingList := [] }
        ensureWeekData
          { s with
              taskAssignments := mapSet s.taskAssignments date emptyAssignment
              nextId := s.nextId + 1 }
          rest

/-- `MemStorage.getUser`: point lookup in the user map. -/
def getUser (s : MemStorage) (id : String) : Option User :=
  mapGet s.users id

/-- `userData.isAdmin || false`: truthy iff the value is a provided,
non-null `true`. -/
def jsIsAdminOrFalse : Option (Option Bool) → Bool
  | some (some true) => true
  | _ => false

/-- `MemStorage.upsertUser` at clock time `now`.  `userData.id ||
randomUUID()` generates a fresh id when `id` is omitted or the empty string
(JavaScript falsiness).  Existing id: `{...existing, ...userData, id,
updatedAt: new Date()}` — provided fields (timestamps included) win, then
`updatedAt` is overwritten with the current time.  Fresh id: explicit
construction with `?? null` defaults, `isAdmin || false`, and both
timestamps set to the current time (payload timestamps ignored). -/
def upsertUser (s : MemStorage) (now : Nat) (userData : UpsertUser) :
    User × MemStorage :=
  let (userId, s0) : String × MemStorage :=
    match userData.id with
    | some i => if i = "" then (uuidStr s.nextId, { s with nextId := s.nextId + 1 }) else (i, s)
    | none => (uuidStr s.nextId, { s with nextId := s.nextId + 1 })
  match mapGet s0.users userId with
  | some existing =>
      let updated : User :=
        { id := userId
          email := userData.email.getD existing.email
          firstName := userData.firstName.getD existing.firstName
          lastName := userData.lastName.getD existing.lastName
          profileImageUrl := userData.profileImageUrl.getD existing.profileImageUrl
          isAdmin := userData.isAdmin.getD existing.isAdmin
          createdAt := userData.createdAt.getD existing.createdAt
          updatedAt := some now }
      (updated, { s0 with users := mapSet s0.users userId updated })
  | none =>
      let newUser : User :=
        { id := userId
          email := userData.email.getD none
          firstName := userData.firstName.getD none
          lastName := userData.lastName.getD none
          profileImageUrl := userData.profileImageUrl.getD none
          isAdmin := some (jsIsAdminOrFalse userData.isAdmin)
          createdAt := some now
          updatedAt := some now }
      (newUser, { s0 with users := mapSet s0.users userId newUser })

/-- The values a mutator observes "before the call": the stored record for
the date, or (on a fresh date) the all-default record the implicit create
step produces, whose id is the next fresh id. -/
def recordBefore (s : MemStorage) (d : String) : TaskAssignment :=
  match mapGet s.taskAssignments d with
  | some e => e
  | none => ⟨s.nextId, d, emptyTasks, none, none, []⟩

end MemStorage

/-- One public store operation, for stating whole-history invariants.
`ensureWeek` is the start-up pre-population of the current week
(`ensureCurrentWeekData`); `getRange` is included because it threads the
state (it consumes fresh ids) even though it never writes the map. -/
inductive Op where
  | assignTask (d : String) (k : TaskType) (a : Option String)
  | setAloneInKitchen (d : String) (v : Option String)
  | setDishOfTheDay (d : String) (v : Option String)
  | resetTasks (d : String)
  | addShoppingItem (d : String) (item : String)
  | removeShoppingItem (d : String) (idx : Int)
  | updateShoppingList (d : String) (items : List String)
  | createOrUpdate (a : InsertTaskAssignment)
  | getRange (ds : List String)
  | ensureWeek (ds : List String)
  | upsertUser (now : Nat) (u : UpsertUser)
deriving Repr

/-- The state left behind by one store operation. -/
def applyOp (s : MemStorage) : Op → MemStorage
  | .assignTask d k a => (s.assignTask d k a).2
  | .setAloneInKitchen d v => (s.setAloneInKitchen d v).2
  | .setDishOfTheDay d v => (s.setDishOfTheDay d v).2
  | .resetTasks d => (s.resetTasks d).2
  | .addShoppingItem d item => (s.addShoppingItem d item).2
  | .removeShoppingItem d idx => (s.removeShoppingItem d idx).2
  | .updateShoppingList d items => (s.updateShoppingList d items).2
  | .createOrUpdate a => (s.createOrUpdateTaskAssignment a).2
  | .getRange ds => (s.getTaskAssignmentsByDateRange ds).2
  | .ensureWeek ds => s.ensureWeekData ds
  | .upsertUser now u => (s.upsertUser now u).2

/-- Run a whole history of store operations. -/
def applyOps (s : MemStorage) (ops : List Op) : MemStorage :=
  ops.foldl applyOp s

/-- The keying invariant of the task-assignment map: every stored record
lives under the key equal to its own `date`. -/
def WellKeyed (m : List (String × TaskAssignment)) : Prop :=
  ∀ k r, mapGet m k = some r → r.date = k

section MapLemmas

theorem mapGet_mapSet_self {α : Type} (m : List (String × α)) (k : String) (v : α) :
    mapGet (mapSet m k v) k = some v := by
  induction m with
  | nil => simp [mapGet, mapSet]
  | cons p rest ih =>
      obtain ⟨k2, w⟩ := p
      by_cases h : k2 = k <;> simp [mapGet, mapSet, h, ih]

theorem mapGet_mapSet_ne {α : Type} (m : List (String × α)) (k k' : String) (v : α)
    (h : k' ≠ k) : mapGet (mapSet m k v) k' = mapGet m k' := by
  induction m with
  | nil => simp [mapGet, mapSet, h, Ne.symm h]
  | cons p rest ih =>
      obtain ⟨k2, w⟩ := p
      by_cases h2 : k2 = k
      · subst h2
        simp [mapGet, mapSet, Ne.symm h]
      · by_cases h3 : k2 = k' <;> simp [mapGet, mapSet, h2, h3, h, Ne.symm h, ih]

end MapLemmas

section TasksLemmas

theorem Tasks.slot_setSlot_self (t : Tasks) (k : TaskType) (a : Option String) :
    (t.setSlot k a).slot k = a := by
  cases k <;> rfl

theorem Tasks.slot_setSlot_ne (t : Tasks) (k k' : TaskType) (a : Option String)
    (h : k' ≠ k) : (t.setSlot k a).slot k' = t.slot k' := by
  cases k <;> cases k' <;> first | rfl | exact absurd rfl h

end TasksLemmas

namespace MemStorage

theorem createOrUpdate_existing (s : MemStorage) (a : InsertTaskAssignment)
    (e : TaskAssignment) (h : mapGet s.taskAssignments a.date = some e) :
    s.createOrUpdateTaskAssignment a =
      (⟨e.id, a.date, a.tasks, a.aloneInKitchen.getD e.aloneInKitchen,
        a.dishOfTheDay.getD e.dishOfTheDay, a.shoppingList.getD e.shoppingList⟩,
       { s with
           taskAssignments := mapSet s.taskAssignments a.date
             ⟨e.id, a.date, a.tasks, a.aloneInKitchen.getD e.aloneInKitchen,
              a.dishOfTheDay.getD e.dishOfTheDay, a.shoppingList.getD e.shoppingList⟩ }) := by
  simp [createOrUpdateTaskAssignment, h]

theorem createOrUpdate_fresh (s : MemStorage) (a : InsertTaskAssignment)
    (h : mapGet s.taskAssignments a.date = none) :
    s.createOrUpdateTaskAssignment a =
      (⟨s.nextId, a.date, a.tasks, a.aloneInKitchen.getD none,
        a.dishOfTheDay.getD none, a.shoppingList.getD []⟩,
       { s with
           taskAssignments := mapSet s.taskAssignments a.date
             ⟨s.nextId, a.date, a.tasks, a.aloneInKitchen.getD none,
              a.dishOfTheDay.getD none, a.shoppingList.getD []⟩
           nextId := s.nextId + 1 }) := by
  simp [createOrUpdateTaskAssignment, h]

end MemStorage

/-- C2: `assignTask(d, k, a)` replaces exactly the `k` slot with `a`; the
other three task slots, `aloneInKitchen`, `dishOfTheDay` and `shoppingList`
keep their before-call values (defaults on a fresh date); the record is for
date `d` and a subsequent `getTaskAssignmentByDate d` observes exactly it. -/
theorem assignTask_updates_exactly_one_slot (s : MemStorage) (d : String)
    (k : TaskType) (a : Option String) :
    ((s.assignTask d k a).1.tasks.slot k = a)
    ∧ (∀ k' : TaskType, k' ≠ k →
        (s.assignTask d k a).1.tasks.slot k' = (s.recordBefore d).tasks.slot k')
    ∧ (s.assignTask d k a).1.aloneInKitchen = (s.recordBefore d).aloneInKitchen
    ∧ (s.assignTask d k a).1.dishOfTheDay = (s.recordBefore d).dishOfTheDay
    ∧ (s.assignTask d k a).1.shoppingList = (s.recordBefore d).shoppingList
    ∧ (s.assignTask d k a).1.date = d
    ∧ (s.assignTask d k a).2.getTaskAssignmentByDate d = some (s.assignTask d k a).1 := by
  cases h : mapGet s.taskAssignments d with
  | some e =>
      refine ⟨?_, ?_, ?_, ?_, ?_, ?_, ?_⟩ <;>
        simp [MemStorage.assignTask, MemStorage.getOrCreate,
          MemStorage.getTaskAssignmentByDate, MemStorage.recordBefore,
          MemStorage.createOrUpdateTaskAssignment, h, mapGet_mapSet_self,
          Tasks.slot_setSlot_self]
      intro k' hk'
      exact Tasks.slot_setSlot_ne e.tasks k k' a hk'
  | none =>
      refine ⟨?_, ?_, ?_, ?_, ?_, ?_, ?_⟩ <;>
        simp [MemStorage.assignTask, MemStorage.getOrCreate,
          MemStorage.getTaskAssignmentByDate, MemStorage.recordBefore,
          MemStorage.defaultInsert, MemStorage.createOrUpdateTaskAssignment, h,
          mapGet_mapSet_self, Tasks.slot_setSlot_self]
      intro k' hk'
      exact Tasks.slot_setSlot_ne emptyTasks k k' a hk'

/-- C2 witness: `assignTask` on a fresh date at the `kok` slot sets that slot
and leaves the `indkoeb` slot at its default. -/
theorem assignTask_updates_exactly_one_slot_witness :
    ((initStorage.assignTask "2024-01-08" .kok (some "Alice")).1.tasks.slot .kok
        = some "Alice")
    ∧ ((initStorage.assignTask "2024-01-08" .kok (some "Alice")).1.tasks.slot .indkoeb
        = (initStorage.recordBefore "2024-01-08").tasks.slot .indkoeb) := by
  obtain ⟨h1, h2, -⟩ :=
    assignTask_updates_exactly_one_slot initStorage "2024-01-08" .kok (some "Alice")
  exact ⟨h1, h2 .indkoeb (by decide)⟩

/-- C1: on a date the store has never seen, every mutating operation
implicitly creates the all-default record (four null task slots, null
`aloneInKitchen`, null `dishOfTheDay`, empty `shoppingList`) and then applies
its own update; each mutator succeeds and returns the full record now stored
under that date. -/
theorem mutators_lazily_create_fresh_date (s : MemStorage) (d : String)
    (k : TaskType) (a v dish : Option String) (item : String) (idx : Int)
    (items : List String) (h : s.getTaskAssignmentByDate d = none) :
    ((s.assignTask d k a).1 = ⟨s.nextId, d, emptyTasks.setSlot k a, none, none, []⟩
      ∧ (s.assignTask d k a).2.getTaskAssignmentByDate d = some (s.assignTask d k a).1)
    ∧ ((s.setAloneInKitchen d v).1 = ⟨s.nextId, d, emptyTasks, v, none, []⟩
      ∧ (s.setAloneInKitchen d v).2.getTaskAssignmentByDate d
          = some (s.setAloneInKitchen d v).1)
    ∧ ((s.setDishOfTheDay d dish).1 = ⟨s.nextId, d, emptyTasks, none, dish, []⟩
      ∧ (s.setDishOfTheDay d dish).2.getTaskAssignmentByDate d
          = some (s.setDishOfTheDay d dish).1)
    ∧ ((s.resetTasks d).1 = ⟨s.nextId, d, emptyTasks, none, none, []⟩
      ∧ (s.resetTasks d).2.getTaskAssignmentByDate d = some (s.resetTasks d).1)
    ∧ ((s.addShoppingItem d item).1 = ⟨s.nextId, d, emptyTasks, none, none, [jsTrim item]⟩
      ∧ (s.addShoppingItem d item).2.getTaskAssignmentByDate d
          = some (s.addShoppingItem d item).1)
    ∧ ((s.removeShoppingItem d idx).1 = ⟨s.nextId, d, emptyTasks, none, none, []⟩
      ∧ (s.removeShoppingItem d idx).2.getTaskAssignmentByDate d
          = some (s.removeShoppingItem d idx).1)
    ∧ ((s.updateShoppingList d items).1
        = ⟨s.nextId, d, emptyTasks, none, none,
            items.filter fun i => 0 < (jsTrim i).length⟩
      ∧ (s.updateShoppingList d items).2.getTaskAssignmentByDate d
          = some (s.updateShoppingList d items).1) := by
  have h' : mapGet s.taskAssignments d = none := h
  refine ⟨⟨?_, ?_⟩, ⟨?_, ?_⟩, ⟨?_, ?_⟩, ⟨?_, ?_⟩, ⟨?_, ?_⟩, ⟨?_, ?_⟩, ⟨?_, ?_⟩⟩ <;>
    simp [MemStorage.assignTask, MemStorage.setAloneInKitchen,
      MemStorage.setDishOfTheDay, MemStorage.resetTasks,
      MemStorage.addShoppingItem, MemStorage.removeShoppingItem,
      MemStorage.updateShoppingList, MemStorage.getOrCreate,
      MemStorage.getTaskAssignmentByDate, MemStorage.defaultInsert,
      MemStorage.createOrUpdateTaskAssignment, MemStorage.filterIdxNe, h',
      mapGet_mapSet_self]

/-- C1 witness: on the fresh date `2024-01-08` of an empty store,
`setDishOfTheDay` returns the default record with just the dish set. -/
theorem mutators_lazily_create_fresh_date_witness :
    (initStorage.setDishOfTheDay "2024-01-08" (some "Lasagna")).1
      = ⟨0, "2024-01-08", emptyTasks, none, some "Lasagna", []⟩ := by
  obtain ⟨-, -, ⟨h, -⟩, -⟩ :=
    mutators_lazily_create_fresh_date initStorage "2024-01-08" .kok none none
      (some "Lasagna") "" 0 [] (by decide)
  exact h

/-- Characterization of the filter-based positional removal: in-range indices
erase exactly one position, everything else (negative or too large) is the
identity. -/
theorem filterIdxNe_eq_eraseIdx (idx : Int) (l : List String) :
    ∀ i : Int, MemStorage.filterIdxNe idx l i =
      if i ≤ idx ∧ idx < i + l.length then l.eraseIdx (idx - i).toNat else l := by
  induction l with
  | nil =>
      intro i
      simp [MemStorage.filterIdxNe]
  | cons x xs ih =>
      intro i
      simp only [MemStorage.filterIdxNe]
      by_cases hidx : i = idx
      · rw [if_pos hidx, ih (i + 1)]
        have hc2 : ¬(i + 1 ≤ idx ∧ idx < i + 1 + (xs.length : Int)) := by omega
        have hc : i ≤ idx ∧ idx < i + ((x :: xs).length : Int) := by
          simp only [List.length_cons]
          push_cast
          omega
        have h0 : (idx - i).toNat = 0 := by omega
        rw [if_neg hc2, if_pos hc, h0, List.eraseIdx_cons_zero]
      · rw [if_neg hidx, ih (i + 1)]
        by_cases hc1 : i + 1 ≤ idx ∧ idx < i + 1 + (xs.length : Int)
        · have hc : i ≤ idx ∧ idx < i + ((x :: xs).length : Int) := by
            simp only [List.length_cons]
            push_cast
            omega
          have hsucc : (idx - i).toNat = (idx - (i + 1)).toNat + 1 := by omega
          rw [if_pos hc1, if_pos hc, hsucc, List.eraseIdx_cons_succ]
        · have hc : ¬(i ≤ idx ∧ idx < i + ((x :: xs).length : Int)) := by
            simp only [List.length_cons]
            push_cast
            push_cast at hc1
            omega
          rw [if_neg hc1, if_neg hc]

/-- C5: `removeShoppingItem(d, i)` never throws (the model is a total
function mirroring the filter-based implementation): a valid 0-based index
removes exactly the element at that position, keeping the order of the rest,
and any out-of-range index — negative or beyond the list — leaves the list
exactly as it was before the call. -/
theorem removeShoppingItem_bounds_policy (s : MemStorage) (d : String) (idx : Int) :
    (s.removeShoppingItem d idx).1.shoppingList =
      if 0 ≤ idx ∧ idx < ((s.recordBefore d).shoppingList.length : Int) then
        ((s.recordBefore d).shoppingList).eraseIdx idx.toNat
      else (s.recordBefore d).shoppingList := by
  have key := filterIdxNe_eq_eraseIdx idx (s.recordBefore d).shoppingList 0
  cases h : mapGet s.taskAssignments d with
  | some e =>
      have hpre : s.recordBefore d = e := by simp [MemStorage.recordBefore, h]
      rw [hpre] at key ⊢
      simp only [MemStorage.removeShoppingItem, MemStorage.getOrCreate,
        MemStorage.getTaskAssignmentByDate, MemStorage.createOrUpdateTaskAssignment, h]
      simpa using key
  | none =>
      have hpre : (s.recordBefore d).shoppingList = [] := by
        simp [MemStorage.recordBefore, h]
      rw [hpre] at key ⊢
      simp only [MemStorage.removeShoppingItem, MemStorage.getOrCreate,
        MemStorage.getTaskAssignmentByDate, MemStorage.defaultInsert,
        MemStorage.createOrUpdateTaskAssignment, h, mapGet_mapSet_self]
      simpa using key

/-- C6: `resetTasks(d)` stores and returns a record for `d` whose mutable
fields are all defaults; the record stays in the store (lookup succeeds,
nothing is deleted), and a second `resetTasks(d)` returns the very same
record and leaves the stored fields unchanged. -/
theorem resetTasks_wipes_and_is_idempotent (s : MemStorage) (d : String) :
    ((s.resetTasks d).1.date = d)
    ∧ (s.resetTasks d).1.tasks = emptyTasks
    ∧ (s.resetTasks d).1.aloneInKitchen = none
    ∧ (s.resetTasks d).1.dishOfTheDay = none
    ∧ (s.resetTasks d).1.shoppingList = []
    ∧ (s.resetTasks d).2.getTaskAssignmentByDate d = some (s.resetTasks d).1
    ∧ ((s.resetTasks d).2.resetTasks d).1 = (s.resetTasks d).1
    ∧ ((s.resetTasks d).2.resetTasks d).2.getTaskAssignmentByDate d
        = some (s.resetTasks d).1 := by
  cases h : mapGet s.taskAssignments d with
  | some e =>
      refine ⟨?_, ?_, ?_, ?_, ?_, ?_, ?_, ?_⟩ <;>
        simp [MemStorage.resetTasks, MemStorage.defaultInsert,
          MemStorage.getTaskAssignmentByDate,
          MemStorage.createOrUpdateTaskAssignment, h, mapGet_mapSet_self]
  | none =>
      refine ⟨?_, ?_, ?_, ?_, ?_, ?_, ?_, ?_⟩ <;>
        simp [MemStorage.resetTasks, MemStorage.defaultInsert,
          MemStorage.getTaskAssignmentByDate,
          MemStorage.createOrUpdateTaskAssignment, h, mapGet_mapSet_self]

/-- C10: on a date that already has a stored record, `resetTasks` keeps that
record's id — the wipe reuses the existing record rather than minting a new
one. -/
theorem resetTasks_preserves_id (s : MemStorage) (d : String) (e : TaskAssignment)
    (h : s.getTaskAssignmentByDate d = some e) :
    (s.resetTasks d).1.id = e.id := by
  have h' : mapGet s.taskAssignments d = some e := h
  simp [MemStorage.resetTasks, MemStorage.defaultInsert,
    MemStorage.createOrUpdateTaskAssignment, h']

/-- C10 witness: after an `assignTask` creates the record for `2024-01-08`
with id 0, `resetTasks` returns a record that still has id 0. -/
theorem resetTasks_preserves_id_witness :
    (((initStorage.assignTask "2024-01-08" .kok (some "Anna")).2.resetTasks
        "2024-01-08").1.id = 0) :=
  resetTasks_preserves_id
    (initStorage.assignTask "2024-01-08" .kok (some "Anna")).2 "2024-01-08"
    ⟨0, "2024-01-08", ⟨some "Anna", none, none, none⟩, none, none, []⟩ (by decide)

/-- C7: every non-reset mutation on a date with an existing record returns a
record with the existing id (`createOrUpdateTaskAssignment` keeps
`existing.id` in its merge branch); and on any store — record present or
not — `assignTask` followed by `setDishOfTheDay` on the same date yields
records with the same id. -/
theorem nonreset_mutations_preserve_id (s : MemStorage) (d : String)
    (e : TaskAssignment) (k : TaskType) (a v dish : Option String)
    (item : String) (idx : Int) (items : List String)
    (ins : InsertTaskAssignment)
    (h : s.getTaskAssignmentByDate d = some e) (hins : ins.date = d) :
    ((s.assignTask d k a).1.id = e.id)
    ∧ (s.setAloneInKitchen d v).1.id = e.id
    ∧ (s.setDishOfTheDay d dish).1.id = e.id
    ∧ (s.addShoppingItem d item).1.id = e.id
    ∧ (s.removeShoppingItem d idx).1.id = e.id
    ∧ (s.updateShoppingList d items).1.id = e.id
    ∧ (s.createOrUpdateTaskAssignment ins).1.id = e.id
    ∧ (∀ s' : MemStorage,
        ((s'.assignTask d k a).2.setDishOfTheDay d dish).1.id
          = (s'.assignTask d k a).1.id) := by
  have h' : mapGet s.taskAssignments d = some e := h
  subst hins
  have hchain : ∀ s' : MemStorage,
      ((s'.assignTask ins.date k a).2.setDishOfTheDay ins.date dish).1.id
        = (s'.assignTask ins.date k a).1.id := by
    intro s'
    cases h2 : mapGet s'.taskAssignments ins.date <;>
      simp [MemStorage.assignTask, MemStorage.setDishOfTheDay,
        MemStorage.getOrCreate, MemStorage.getTaskAssignmentByDate,
        MemStorage.defaultInsert, MemStorage.createOrUpdateTaskAssignment,
        h2, mapGet_mapSet_self]
  refine ⟨?_, ?_, ?_, ?_, ?_, ?_, ?_, hchain⟩ <;>
    simp [MemStorage.assignTask, MemStorage.setAloneInKitchen,
      MemStorage.setDishOfTheDay, MemStorage.addShoppingItem,
      MemStorage.removeShoppingItem, MemStorage.updateShoppingList,
      MemStorage.getOrCreate, MemStorage.getTaskAssignmentByDate,
      MemStorage.createOrUpdateTaskAssignment, h']

/-- C7 witness: with the record for `2024-01-08` created by `assignTask`
(id 0), each non-reset mutation keeps id 0. -/
theorem nonreset_mutations_preserve_id_witness :
    ((initStorage.assignTask "2024-01-08" .kok (some "Anna")).2.setDishOfTheDay
        "2024-01-08" (some "Lasagna")).1.id = 0 := by
  obtain ⟨-, -, h, -⟩ :=
    nonreset_mutations_preserve_id
      (initStorage.assignTask "2024-01-08" .kok (some "Anna")).2 "2024-01-08"
      ⟨0, "2024-01-08", ⟨some "Anna", none, none, none⟩, none, none, []⟩
      .kok none none (some "Lasagna") "" 0 []
      (MemStorage.defaultInsert "2024-01-08") (by decide) rfl
  exact h

/-- Every survivor of the blank-entry filter is a nonempty string. -/
theorem filter_trim_all_nonempty (items : List String) :
    ((items.filter fun i => 0 < (jsTrim i).length).all fun i => !(i == "")) = true := by
  induction items with
  | nil => rfl
  | cons x xs ih =>
      by_cases hx : 0 < (jsTrim x).length
      · have hxne : (x == "") = false := by
          rcases eq_or_ne x "" with hxe | hxe
          · subst hxe
            simp [jsTrim] at hx
          · simp [hxe]
        simp [List.filter_cons, hx, List.all_cons, hxne, ih]
      · simp [List.filter_cons, hx, ih]

/-- C4 counterexample: the claim says every shopping-list write filters out
empty and whitespace-only strings, so no written list contains an empty
string; but `addShoppingItem` performs no filtering — adding the
whitespace-only item `" "` on a fresh date stores the empty string. -/
theorem addShoppingItem_keeps_blank_counterexample :
    "" ∈ (initStorage.addShoppingItem "2024-01-08" " ").1.shoppingList := by decide

/-- C4 (amended): only the `replaceShoppingList`/`updateShoppingList` path
filters out empty and whitespace-only strings, and it does not trim the
surviving items, so its result contains no empty string; `addShoppingItem`
appends its item trimmed of leading/trailing whitespace without any
filtering (a whitespace-only item is appended as the empty string). -/
theorem shoppingList_write_filtering (s : MemStorage) (d : String)
    (item : String) (items : List String) :
    ((s.addShoppingItem d item).1.shoppingList
        = (s.recordBefore d).shoppingList ++ [jsTrim item])
    ∧ (s.updateShoppingList d items).1.shoppingList
        = items.filter (fun i => 0 < (jsTrim i).length)
    ∧ ((s.updateShoppingList d items).1.shoppingList.all
        (fun i => !(i == ""))) = true := by
  have hupd : (s.updateShoppingList d items).1.shoppingList
      = items.filter (fun i => 0 < (jsTrim i).length) := by
    cases h : mapGet s.taskAssignments d <;>
      simp [MemStorage.updateShoppingList, MemStorage.getOrCreate,
        MemStorage.getTaskAssignmentByDate, MemStorage.defaultInsert,
        MemStorage.createOrUpdateTaskAssignment, h, mapGet_mapSet_self]
  refine ⟨?_, hupd, ?_⟩
  · cases h : mapGet s.taskAssignments d <;>
      simp [MemStorage.addShoppingItem, MemStorage.getOrCreate,
        MemStorage.getTaskAssignmentByDate, MemStorage.recordBefore,
        MemStorage.defaultInsert, MemStorage.createOrUpdateTaskAssignment, h,
        mapGet_mapSet_self]
  · rw [hupd]
    exact filter_trim_all_nonempty items

theorem getRange_length (ds : List String) :
    ∀ s : MemStorage, (s.getTaskAssignmentsByDateRange ds).1.length = ds.length := by
  induction ds with
  | nil => intro s; rfl
  | cons d rest ih =>
      intro s
      cases h : mapGet s.taskAssignments d <;>
        simp [MemStorage.getTaskAssignmentsByDateRange, h, ih]

theorem getRange_map_unchanged (ds : List String) :
    ∀ s : MemStorage,
      (s.getTaskAssignmentsByDateRange ds).2.taskAssignments = s.taskAssignments := by
  induction ds with
  | nil => intro s; rfl
  | cons d rest ih =>
      intro s
      cases h : mapGet s.taskAssignments d <;>
        simp [MemStorage.getTaskAssignmentsByDateRange, h, ih]

theorem getRange_index (ds : List String) :
    ∀ (s : MemStorage) (i : Nat), i < ds.length →
      (match mapGet s.taskAssignments (ds.getD i "") with
       | some a =>
           (s.getTaskAssignmentsByDateRange ds).1.getD i
             ⟨0, "", emptyTasks, none, none, []⟩ = a
       | none => ∃ n : Nat,
           (s.getTaskAssignmentsByDateRange ds).1.getD i
             ⟨0, "", emptyTasks, none, none, []⟩
             = ⟨n, ds.getD i "", emptyTasks, none, none, []⟩) := by
  induction ds with
  | nil =>
      intro s i hi
      simp at hi
  | cons d rest ih =>
      intro s i hi
      cases i with
      | zero =>
          cases h : mapGet s.taskAssignments d with
          | some a => simp [MemStorage.getTaskAssignmentsByDateRange, h]
          | none =>
              simp only [MemStorage.getTaskAssignmentsByDateRange, h, List.getD_cons_zero]
              exact ⟨s.nextId, rfl⟩
      | succ j =>
          have hj : j < rest.length := by simpa using hi
          cases h : mapGet s.taskAssignments d with
          | some a =>
              have hrec := ih s j hj
              simpa [MemStorage.getTaskAssignmentsByDateRange, h] using hrec
          | none =>
              have hrec := ih { s with nextId := s.nextId + 1 } j hj
              simpa [MemStorage.getTaskAssignmentsByDateRange, h] using hrec

/-- C3: `getTaskAssignmentsByDateRange` returns exactly one record per input
date, in input order; an input date with a stored record contributes that
record, and an input date without one contributes a synthesized record (that
date, all four task slots null, null `aloneInKitchen`, null `dishOfTheDay`,
empty `shoppingList`, some freshly generated id) which is not stored: the
task-assignment map after the call is exactly the map before it. -/
theorem getRange_one_record_per_date (s : MemStorage) (ds : List String) :
    ((s.getTaskAssignmentsByDateRange ds).1.length = ds.length)
    ∧ ((s.getTaskAssignmentsByDateRange ds).2.taskAssignments = s.taskAssignments)
    ∧ (∀ i : Nat, i < ds.length →
        (match mapGet s.taskAssignments (ds.getD i "") with
         | some a =>
             (s.getTaskAssignmentsByDateRange ds).1.getD i
               ⟨0, "", emptyTasks, none, none, []⟩ = a
         | none => ∃ n : Nat,
             (s.getTaskAssignmentsByDateRange ds).1.getD i
               ⟨0, "", emptyTasks, none, none, []⟩
               = ⟨n, ds.getD i "", emptyTasks, none, none, []⟩)) :=
  ⟨getRange_length ds s, getRange_map_unchanged ds s, fun i hi => getRange_index ds s i hi⟩

/-- C3 witness: in a store holding only `2024-01-08`, a range read over
`2024-01-08` and the fresh `2024-01-09` returns the stored record first and
a synthesized default for the fresh date second. -/
theorem getRange_one_record_per_date_witness :
    (((initStorage.assignTask "2024-01-08" .kok
          (some "Anna")).2.getTaskAssignmentsByDateRange
            ["2024-01-08", "2024-01-09"]).1.getD 0 ⟨0, "", emptyTasks, none, none, []⟩
        = ⟨0, "2024-01-08", ⟨some "Anna", none, none, none⟩, none, none, []⟩)
    ∧ (∃ n : Nat,
        ((initStorage.assignTask "2024-01-08" .kok
            (some "Anna")).2.getTaskAssignmentsByDateRange
              ["2024-01-08", "2024-01-09"]).1.getD 1 ⟨0, "", emptyTasks, none, none, []⟩
          = ⟨n, "2024-01-09", emptyTasks, none, none, []⟩) := by
  obtain ⟨-, -, hidx⟩ :=
    getRange_one_record_per_date
      (initStorage.assignTask "2024-01-08" .kok (some "Anna")).2
      ["2024-01-08", "2024-01-09"]
  exact ⟨hidx 0 (by decide), hidx 1 (by decide)⟩

/-- C8 counterexample: with the same id `"u"`, the second upsert carries an
explicit `createdAt` in its payload; the spread `{...existing, ...userData}`
lets it override, so the two sequential upserts do not yield identical
`createdAt` (10 for the first, 99 for the second). -/
theorem upsertUser_createdAt_counterexample :
    ((initStorage.upsertUser 10 { UpsertUser.empty with id := some "u" }).1.createdAt
        = some 10)
    ∧ (((initStorage.upsertUser 10
          { UpsertUser.empty with id := some "u" }).2.upsertUser 20
          { UpsertUser.empty with
              id := some "u",
              createdAt := some (some 99) }).1.createdAt = some 99) := by
  constructor <;> decide

/-- C8 (amended): for a nonempty user id, with upsert payloads that do not
themselves carry a `createdAt` field: the first upsert creates the record
with null defaults for the omitted optional fields, `isAdmin` false by
default and both timestamps set to the current time; a subsequent upsert
with the same id merges the provided fields over the existing record and
refreshes `updatedAt` only, so the two calls yield identical `createdAt` and
(with a non-decreasing clock) non-decreasing `updatedAt`.  (Unamended, the
claim fails when a payload provides `createdAt` — see the counterexample —
and for the empty-string id, which JavaScript falsiness routes to a
generated uuid instead of the given id.) -/
theorem upsertUser_create_then_merge (s : MemStorage) (uid : String)
    (u1 u2 : UpsertUser) (t1 t2 : Nat)
    (hid : uid ≠ "") (h1 : u1.id = some uid) (h2 : u2.id = some uid)
    (hc2 : u2.createdAt = none) (hfresh : s.getUser uid = none) (ht : t1 ≤ t2) :
    ((s.upsertUser t1 u1).1.id = uid)
    ∧ ((s.upsertUser t1 u1).1.email = u1.email.getD none)
    ∧ ((s.upsertUser t1 u1).1.firstName = u1.firstName.getD none)
    ∧ ((s.upsertUser t1 u1).1.lastName = u1.lastName.getD none)
    ∧ ((s.upsertUser t1 u1).1.profileImageUrl = u1.profileImageUrl.getD none)
    ∧ (u1.isAdmin = none → (s.upsertUser t1 u1).1.isAdmin = some false)
    ∧ ((s.upsertUser t1 u1).1.createdAt = some t1)
    ∧ ((s.upsertUser t1 u1).1.updatedAt = some t1)
    ∧ (((s.upsertUser t1 u1).2.upsertUser t2 u2).1.id = uid)
    ∧ (((s.upsertUser t1 u1).2.upsertUser t2 u2).1.email
        = u2.email.getD (s.upsertUser t1 u1).1.email)
    ∧ (((s.upsertUser t1 u1).2.upsertUser t2 u2).1.firstName
        = u2.firstName.getD (s.upsertUser t1 u1).1.firstName)
    ∧ (((s.upsertUser t1 u1).2.upsertUser t2 u2).1.lastName
        = u2.lastName.getD (s.upsertUser t1 u1).1.lastName)
    ∧ (((s.upsertUser t1 u1).2.upsertUser t2 u2).1.profileImageUrl
        = u2.profileImageUrl.getD (s.upsertUser t1 u1).1.profileImageUrl)
    ∧ (((s.upsertUser t1 u1).2.upsertUser t2 u2).1.isAdmin
        = u2.isAdmin.getD (s.upsertUser t1 u1).1.isAdmin)
    ∧ (((s.upsertUser t1 u1).2.upsertUser t2 u2).1.createdAt
        = (s.upsertUser t1 u1).1.createdAt)
    ∧ (((s.upsertUser t1 u1).2.upsertUser t2 u2).1.updatedAt = some t2)
    ∧ ((s.upsertUser t1 u1).1.updatedAt.getD 0
        ≤ ((s.upsertUser t1 u1).2.upsertUser t2 u2).1.updatedAt.getD 0)
    ∧ (((s.upsertUser t1 u1).2.upsertUser t2 u2).2.getUser uid
        = some ((s.upsertUser t1 u1).2.upsertUser t2 u2).1) := by
  have hfresh' : mapGet s.users uid = none := hfresh
  have hadm : u1.isAdmin = none → (s.upsertUser t1 u1).1.isAdmin = some false := by
    intro ha
    simp [MemStorage.upsertUser, MemStorage.jsIsAdminOrFalse, h1, hid, hfresh', ha]
  refine ⟨?_, ?_, ?_, ?_, ?_, hadm, ?_, ?_, ?_, ?_, ?_, ?_, ?_, ?_, ?_, ?_, ?_, ?_⟩ <;>
    simp [MemStorage.upsertUser, MemStorage.getUser, MemStorage.jsIsAdminOrFalse,
      h1, h2, hid, hc2, hfresh', mapGet_mapSet_self, ht]

/-- C8 witness: two sequential upserts for id `"u"` at times 10 and 20 show
identical `createdAt` and refreshed `updatedAt`. -/
theorem upsertUser_create_then_merge_witness :
    (((initStorage.upsertUser 10
        { UpsertUser.empty with
            id := some "u",
            email := some (some "anna@example.com") }).2.upsertUser 20
        { UpsertUser.empty with
            id := some "u",
            firstName := some (some "Anna") }).1.createdAt
      = (initStorage.upsertUser 10
          { UpsertUser.empty with
              id := some "u",
              email := some (some "anna@example.com") }).1.createdAt)
    ∧ (((initStorage.upsertUser 10
        { UpsertUser.empty with
            id := some "u",
            email := some (some "anna@example.com") }).2.upsertUser 20
        { UpsertUser.empty with
            id := some "u",
            firstName := some (some "Anna") }).1.updatedAt = some 20) := by
  obtain ⟨-, -, -, -, -, -, -, -, -, -, -, -, -, -, hcreated, hupdated, -, -⟩ :=
    upsertUser_create_then_merge initStorage "u"
      { UpsertUser.empty with
          id := some "u",
          email := some (some "anna@example.com") }
      { UpsertUser.empty with
          id := some "u",
          firstName := some (some "Anna") }
      10 20 (by decide) rfl rfl rfl (by decide) (by decide)
  exact ⟨hcreated, hupdated⟩

theorem wellKeyed_mapSet (m : List (String × TaskAssignment)) (k : String)
    (v : TaskAssignment) (h : WellKeyed m) (hv : v.date = k) :
    WellKeyed (mapSet m k v) := by
  intro k' r hr
  by_cases hk : k' = k
  · subst hk
    rw [mapGet_mapSet_self] at hr
    cases hr
    exact hv
  · rw [mapGet_mapSet_ne _ _ _ _ hk] at hr
    exact h k' r hr

theorem wellKeyed_createOrUpdate (s : MemStorage) (a : InsertTaskAssignment)
    (h : WellKeyed s.taskAssignments) :
    WellKeyed (s.createOrUpdateTaskAssignment a).2.taskAssignments := by
  cases hm : mapGet s.taskAssignments a.date with
  | some e =>
      simp only [MemStorage.createOrUpdateTaskAssignment, hm]
      exact wellKeyed_mapSet _ _ _ h rfl
  | none =>
      simp only [MemStorage.createOrUpdateTaskAssignment, hm]
      exact wellKeyed_mapSet _ _ _ h rfl

theorem wellKeyed_getOrCreate (s : MemStorage) (d : String)
    (h : WellKeyed s.taskAssignments) :
    WellKeyed (s.getOrCreate d).2.taskAssignments := by
  cases hm : mapGet s.taskAssignments d with
  | some e =>
      simp only [MemStorage.getOrCreate, MemStorage.getTaskAssignmentByDate, hm]
      exact h
  | none =>
      simp only [MemStorage.getOrCreate, MemStorage.getTaskAssignmentByDate, hm]
      exact wellKeyed_createOrUpdate s _ h

theorem wellKeyed_ensureWeekData (ds : List String) :
    ∀ s : MemStorage, WellKeyed s.taskAssignments →
      WellKeyed (s.ensureWeekData ds).taskAssignments := by
  induction ds with
  | nil => intro s h; exact h
  | cons d rest ih =>
      intro s h
      cases hm : mapGet s.taskAssignments d with
      | some e =>
          simp only [MemStorage.ensureWeekData, hm]
          exact ih s h
      | none =>
          simp only [MemStorage.ensureWeekData, hm]
          exact ih _ (wellKeyed_mapSet _ _ _ h rfl)

theorem upsertUser_taskAssignments (s : MemStorage) (now : Nat) (u : UpsertUser) :
    (s.upsertUser now u).2.taskAssignments = s.taskAssignments := by
  cases hid : u.id with
  | none =>
      cases h : mapGet s.users (uuidStr s.nextId) <;>
        simp [MemStorage.upsertUser, hid, h]
  | some i =>
      by_cases hempty : i = ""
      · subst hempty
        cases h : mapGet s.users (uuidStr s.nextId) <;>
          simp [MemStorage.upsertUser, hid, h]
      · cases h : mapGet s.users i <;>
          simp [MemStorage.upsertUser, hid, h, hempty]

theorem wellKeyed_applyOp (s : MemStorage) (op : Op)
    (h : WellKeyed s.taskAssignments) : WellKeyed (applyOp s op).taskAssignments := by
  cases op with
  | assignTask d k a =>
      rcases hgc : s.getOrCreate d with ⟨e, s1⟩
      have h1 : WellKeyed s1.taskAssignments := by
        have hh := wellKeyed_getOrCreate s d h
        rw [hgc] at hh
        exact hh
      simp only [applyOp, MemStorage.assignTask, hgc]
      exact wellKeyed_createOrUpdate s1 _ h1
  | setAloneInKitchen d v =>
      rcases hgc : s.getOrCreate d with ⟨e, s1⟩
      have h1 : WellKeyed s1.taskAssignments := by
        have hh := wellKeyed_getOrCreate s d h
        rw [hgc] at hh
        exact hh
      simp only [applyOp, MemStorage.setAloneInKitchen, hgc]
      exact wellKeyed_createOrUpdate s1 _ h1
  | setDishOfTheDay d v =>
      rcases hgc : s.getOrCreate d with ⟨e, s1⟩
      have h1 : WellKeyed s1.taskAssignments := by
        have hh := wellKeyed_getOrCreate s d h
        rw [hgc] at hh
        exact hh
      simp only [applyOp, MemStorage.setDishOfTheDay, hgc]
      exact wellKeyed_createOrUpdate s1 _ h1
  | resetTasks d =>
      simp only [applyOp, MemStorage.resetTasks]
      exact wellKeyed_createOrUpdate s _ h
  | addShoppingItem d item =>
      rcases hgc : s.getOrCreate d with ⟨e, s1⟩
      have h1 : WellKeyed s1.taskAssignments := by
        have hh := wellKeyed_getOrCreate s d h
        rw [hgc] at hh
        exact hh
      simp only [applyOp, MemStorage.addShoppingItem, hgc]
      exact wellKeyed_createOrUpdate s1 _ h1
  | removeShoppingItem d idx =>
      rcases hgc : s.getOrCreate d with ⟨e, s1⟩
      have h1 : WellKeyed s1.taskAssignments := by
        have hh := wellKeyed_getOrCreate s d h
        rw [hgc] at hh
        exact hh
      simp only [applyOp, MemStorage.removeShoppingItem, hgc]
      exact wellKeyed_createOrUpdate s1 _ h1
  | updateShoppingList d items =>
      rcases hgc : s.getOrCreate d with ⟨e, s1⟩
      have h1 : WellKeyed s1.taskAssignments := by
        have hh := wellKeyed_getOrCreate s d h
        rw [hgc] at hh
        exact hh
      simp only [applyOp, MemStorage.updateShoppingList, hgc]
      exact wellKeyed_createOrUpdate s1 _ h1
  | createOrUpdate a =>
      simp only [applyOp]
      exact wellKeyed_createOrUpdate s a h
  | getRange ds =>
      simp only [applyOp]
      rw [getRange_map_unchanged ds s]
      exact h
  | ensureWeek ds =>
      simp only [applyOp]
      exact wellKeyed_ensureWeekData ds s h
  | upsertUser now u =>
      simp only [applyOp]
      rw [upsertUser_taskAssignments s now u]
      exact h

theorem wellKeyed_applyOps (ops : List Op) :
    ∀ s : MemStorage, WellKeyed s.taskAssignments →
      WellKeyed (applyOps s ops).taskAssignments := by
  induction ops with
  | nil => intro s h; exact h
  | cons op rest ih => intro s h; exact ih _ (wellKeyed_applyOp s op h)

/-- C9: after any sequence of store operations starting from the empty store
(start-up pre-population of the current week included), every stored
`TaskAssignment` sits under the key equal to its own `date`; in particular a
successful `getTaskAssignmentByDate d` always yields a record whose `date`
is `d`. -/
theorem stored_records_keyed_by_date (ops : List Op) (d : String)
    (r : TaskAssignment)
    (h : (applyOps initStorage ops).getTaskAssignmentByDate d = some r) :
    r.date = d := by
  have hinit : WellKeyed initStorage.taskAssignments := by
    intro k r' hr
    simp [initStorage, mapGet] at hr
  exact wellKeyed_applyOps ops initStorage hinit d r h

/-- C9 witness: after pre-populating the week of `2024-01-08`, the record
looked up under `2024-01-08` carries that date. -/
theorem stored_records_keyed_by_date_witness :
    (⟨0, "2024-01-08", emptyTasks, none, none, []⟩ : TaskAssignment).date
      = "2024-01-08" :=
  stored_records_keyed_by_date [Op.ensureWeek ["2024-01-08"]] "2024-01-08"
    ⟨0, "2024-01-08", emptyTasks, none, none, []⟩ (by decide)

end DinnerDuty
